import Mathlib

/-!
Shallow embedding of the `glitched-server-client` download client
(`src/client/src/hex.rs`, `src/client/src/http_client.rs`,
`src/client/src/main.rs`).

Bytes are `Fin 256`; the TCP stream is a list of read events (a chunk of
bytes, or an I/O error of a given kind carrying its display message).  A
zero-byte chunk models a read that returns 0 (end of stream).  Writing the
request always succeeds (as in the repository's own mock stream), so
`fetch_range_via_stream` returns the written request alongside the fetch
result.
-/

abbrev Byte := Fin 256

/-- The subset of `std::io::ErrorKind` values the client inspects. -/
inductive IOErrorKind where
  | connectionRefused
  | timedOut
  | connectionReset
  | connectionAborted
  | notConnected
  | brokenPipe
  | wouldBlock
  | unexpectedEof
  | interrupted
  | invalidData
  | otherKind
deriving DecidableEq, Repr

/-- One read result delivered by the stream: a chunk of bytes (empty chunk =
a zero-byte read, i.e. end of stream) or an I/O error with kind and display
message. -/
inductive StreamEvent where
  | bytes (data : List Byte)
  | ioError (k : IOErrorKind) (msg : String)
deriving DecidableEq, Repr

/-- `Box<dyn Error>` as the client observes it: either an `io::Error`
(downcastable, with a kind) or a plain string error.  `msg` is the
`to_string()` rendering in both cases. -/
inductive DownloadError where
  | ioErr (k : IOErrorKind) (msg : String)
  | strErr (msg : String)
deriving DecidableEq, Repr

def DownloadError.message : DownloadError → String
  | .ioErr _ m => m
  | .strErr m => m

def DownloadError.ioKind : DownloadError → Option IOErrorKind
  | .ioErr k _ => some k
  | .strErr _ => none

/-! ## hex.rs -/

/-- `HEX_DIGITS` from `hex.rs`. -/
def HEX_DIGITS : List Char := "0123456789abcdef".data

/-- `hex::encode`, one byte at a time: high nibble (`byte >> 4`) then low
nibble (`byte & 0xF`). -/
def encodeChars : List Byte → List Char
  | [] => []
  | b :: rest =>
    HEX_DIGITS.getD (b.val / 16) '0' :: HEX_DIGITS.getD (b.val % 16) '0' :: encodeChars rest

/-- `hex::encode` from `hex.rs`. -/
def encode (bs : List Byte) : String := String.mk (encodeChars bs)

/-! ## parse_status_line (http_client.rs) -/

/-- `char::is_whitespace` restricted to the ASCII range (the only whitespace
the client ever meets; non-ASCII Unicode `White_Space` is not modelled). -/
def isRustWhitespace (c : Char) : Bool :=
  c = ' ' || c = '\t' || c = '\n' || c = '\r' || c.toNat = 11 || c.toNat = 12

/-- `str::trim`: drop whitespace from both ends. -/
def trimChars (s : List Char) : List Char :=
  ((s.dropWhile isRustWhitespace).reverse.dropWhile isRustWhitespace).reverse

/-- Split at the first occurrence of `sep`: `some (before, after)`, or `none`
when `sep` does not occur. -/
def splitOnceChar (sep : Char) : List Char → Option (List Char × List Char)
  | [] => none
  | c :: r =>
    if c = sep then some ([], r)
    else (splitOnceChar sep r).map (fun p => (c :: p.1, p.2))

/-- `str::splitn(3, ' ')`: at most three fields, the last keeps any further
spaces. -/
def splitn3 (s : List Char) : List (List Char) :=
  match splitOnceChar ' ' s with
  | none => [s]
  | some (a, r) =>
    match splitOnceChar ' ' r with
    | none => [a, r]
    | some (b, c) => [a, b, c]

/-- The three `ParseIntError` cases `u16::from_str` can produce here. -/
inductive ParseIntError where
  | empty
  | invalidDigit
  | posOverflow
deriving DecidableEq, Repr

/-- The `Display` text of each `ParseIntError`. -/
def ParseIntError.message : ParseIntError → String
  | .empty => "cannot parse integer from empty string"
  | .invalidDigit => "invalid digit found in string"
  | .posOverflow => "number too large to fit in target type"

/-- Digit-by-digit accumulation of `u16::from_str`: a non-digit is an
invalid-digit error, exceeding `u16::MAX` is a positive-overflow error. -/
def parseU16Digits : List Char → Nat → Except ParseIntError Nat
  | [], acc => .ok acc
  | c :: rest, acc =>
    if c.isDigit then
      if acc * 10 + (c.toNat - 48) < 65536 then
        parseU16Digits rest (acc * 10 + (c.toNat - 48))
      else .error .posOverflow
    else .error .invalidDigit

/-- `str::parse::<u16>`: optional leading `+`, then one or more decimal
digits, value at most 65535. -/
def parseU16 : List Char → Except ParseIntError Nat
  | [] => .error .empty
  | c :: rest =>
    if c = '+' then
      match rest with
      | [] => .error .empty
      | ds => parseU16Digits ds 0
    else parseU16Digits (c :: rest) 0

/-- The error cases of `parse_status_line`, each carrying the data its
formatted message interpolates. -/
inductive StatusLineError where
  | emptyAfterTrim
  | tooFewParts (trimmed : String)
  | badVersion (part0 trimmed : String)
  | badCode (part1 trimmed : String) (pe : ParseIntError)
deriving DecidableEq, Repr

/-- The exact `format!` message of each `parse_status_line` error. -/
def StatusLineError.message : StatusLineError → String
  | .emptyAfterTrim => "Status line is empty after trimming"
  | .tooFewParts t => "Malformed status line (too few parts): \x27" ++ t ++ "\x27"
  | .badVersion p0 t =>
    "Malformed status line (invalid or missing HTTP version part \x27" ++ p0 ++ "\x27): \x27"
      ++ t ++ "\x27"
  | .badCode p1 t pe =>
    "Invalid status code \x27" ++ p1 ++ "\x27 in line \x27" ++ t ++ "\x27: " ++ pe.message

/-- `parse_status_line` from `http_client.rs`. -/
def parse_status_line (line : String) : Except StatusLineError Nat :=
  if trimChars line.data = [] then .error .emptyAfterTrim
  else
    match splitn3 (trimChars line.data) with
    | p0 :: p1 :: _ =>
      if ("HTTP/".data).isPrefixOf p0 then
        match parseU16 p1 with
        | .ok n => .ok n
        | .error pe => .error (.badCode (String.mk p1) (String.mk (trimChars line.data)) pe)
      else .error (.badVersion (String.mk p0) (String.mk (trimChars line.data)))
    | _ => .error (.tooFewParts (String.mk (trimChars line.data)))

/-! ## Stream reading (http_client.rs, fetch_range_via_stream) -/

/-- One-pass UTF-8 validation and decoding, byte by byte.  `needed` is the
number of continuation bytes still expected (0 = at a character boundary);
`pending` is the partially assembled code point; `lo`/`hi` bound the next
continuation byte (tight after an `E0`/`ED`/`F0`/`F4` lead byte to rule out
overlong forms, surrogates and code points beyond U+10FFFF, `0x80`/`0xBF`
otherwise); `acc` holds the decoded characters in reverse. -/
def utf8Run (pending needed lo hi : Nat) (acc : List Char) :
    List Byte → Option (List Char)
  | [] => if needed = 0 then some acc.reverse else none
  | b :: rest =>
    if needed = 0 then
      if b.val < 0x80 then utf8Run 0 0 0 0 (Char.ofNat b.val :: acc) rest
      else if b.val < 0xC2 then none
      else if b.val < 0xE0 then utf8Run (b.val - 0xC0) 1 0x80 0xBF acc rest
      else if b.val < 0xF0 then
        utf8Run (b.val - 0xE0) 2 (if b.val = 0xE0 then 0xA0 else 0x80)
          (if b.val = 0xED then 0x9F else 0xBF) acc rest
      else if b.val < 0xF5 then
        utf8Run (b.val - 0xF0) 3 (if b.val = 0xF0 then 0x90 else 0x80)
          (if b.val = 0xF4 then 0x8F else 0xBF) acc rest
      else none
    else
      if lo ≤ b.val && b.val ≤ hi then
        if needed = 1 then
          utf8Run 0 0 0 0 (Char.ofNat (pending * 0x40 + (b.val - 0x80)) :: acc) rest
        else utf8Run (pending * 0x40 + (b.val - 0x80)) (needed - 1) 0x80 0xBF acc rest
      else none

/-- UTF-8 decoding as `String::from_utf8` validates it: `some` chars on
valid input, `none` on invalid input. -/
def utf8Decode (l : List Byte) : Option (List Char) := utf8Run 0 0 0 0 [] l

/-- The message `read_line` uses for invalid UTF-8. -/
def utf8ErrMsg : String := "stream did not contain valid UTF-8"

def closedBeforeMsg : String := "Connection closed before status line received"

def closedDuringMsg : String := "Connection closed during header reading"

/-- Split a byte list at its first `\n`: `some (line-including-newline,
rest)`, or `none` if there is no newline. -/
def split_at_newline : List Byte → Option (List Byte × List Byte)
  | [] => none
  | b :: r =>
    if b = (10 : Byte) then some ([10], r)
    else (split_at_newline r).map (fun p => (b :: p.1, p.2))

/-- The event-consuming half of `BufReader::read_line`: `acc` holds the line
bytes gathered so far (no `\n` among them).  Pulls chunks until a `\n`, end
of stream, or a zero-byte read; retries `Interrupted`; propagates other read
errors.  Returns the line, the leftover buffered bytes, and the remaining
events. -/
def read_line_ev (acc : List Byte) :
    List StreamEvent → Except (IOErrorKind × String) (List Byte × List Byte × List StreamEvent)
  | [] => .ok (acc, [], [])
  | .bytes [] :: r => .ok (acc, [], .bytes [] :: r)
  | .bytes d :: r =>
    match split_at_newline d with
    | some (line, rest) => .ok (acc ++ line, rest, r)
    | none => read_line_ev (acc ++ d) r
  | .ioError .interrupted _ :: r => read_line_ev acc r
  | .ioError k m :: _ => .error (k, m)

/-- `BufReader::read_line` at the byte level: first look for a `\n` in the
reader's leftover buffered bytes `buf`, then keep pulling stream events. -/
def read_line_bytes (buf : List Byte) (acc : List Byte) (evs : List StreamEvent) :
    Except (IOErrorKind × String) (List Byte × List Byte × List StreamEvent) :=
  match split_at_newline buf with
  | some (line, rest) => .ok (acc ++ line, rest, evs)
  | none => read_line_ev (acc ++ buf) evs

/-- Walk one chunk of header bytes.  `cur` is the current line so far; a
`\n` completes a line, which is UTF-8-validated and compared against
`"\r\n"` (byte-for-byte, as Rust string equality does).  Result: `.inl cur`
when the chunk is exhausted mid-line, `.inr rest` when the blank `\r\n` line
was found with `rest` still unconsumed. -/
def scan_headers (cur : List Byte) : List Byte → Except DownloadError (List Byte ⊕ List Byte)
  | [] => .ok (.inl cur)
  | b :: rest =>
    if b = (10 : Byte) then
      if (utf8Decode (cur ++ [10])).isSome then
        if cur ++ [(10 : Byte)] = [13, 10] then .ok (.inr rest)
        else scan_headers [] rest
      else .error (.ioErr .invalidData utf8ErrMsg)
    else scan_headers (cur ++ [b]) rest

/-- The header loop of `fetch_range_via_stream` at the event level: `cur` is
the partial line carried across chunks.  A zero-byte read while still inside
the header block is the distinct closed-during-header-reading error (Rust
first returns the partial line, which cannot equal `"\r\n"` since it holds
no `\n`, and the following zero-byte read raises the error). -/
def read_headers_ev (cur : List Byte) :
    List StreamEvent → Except DownloadError (List Byte × List StreamEvent)
  | [] =>
    if cur = [] then .error (.strErr closedDuringMsg)
    else if (utf8Decode cur).isSome then .error (.strErr closedDuringMsg)
    else .error (.ioErr .invalidData utf8ErrMsg)
  | .bytes [] :: _ =>
    if cur = [] then .error (.strErr closedDuringMsg)
    else if (utf8Decode cur).isSome then .error (.strErr closedDuringMsg)
    else .error (.ioErr .invalidData utf8ErrMsg)
  | .bytes d :: r =>
    match scan_headers cur d with
    | .error e => .error e
    | .ok (.inr rest) => .ok (rest, r)
    | .ok (.inl cur2) => read_headers_ev cur2 r
  | .ioError .interrupted _ :: r => read_headers_ev cur r
  | .ioError k m :: _ => .error (.ioErr k m)

/-- The header loop, starting from the bytes left over after the status
line. -/
def read_headers (buf : List Byte) (evs : List StreamEvent) :
    Except DownloadError (List Byte × List StreamEvent) :=
  match scan_headers [] buf with
  | .error e => .error e
  | .ok (.inr rest) => .ok (rest, evs)
  | .ok (.inl cur) => read_headers_ev cur evs

/-- The body-draining loop: append chunks until a zero-byte read (normal
end), retry `Interrupted`, treat `WouldBlock` / `TimedOut` /
`UnexpectedEof` as the end of a partial body, and propagate any other read
error. -/
def drain_events (acc : List Byte) : List StreamEvent → Except DownloadError (List Byte)
  | [] => .ok acc
  | .bytes [] :: _ => .ok acc
  | .bytes d :: r => drain_events (acc ++ d) r
  | .ioError .interrupted _ :: r => drain_events acc r
  | .ioError k m :: _ =>
    if k = .wouldBlock || k = .timedOut || k = .unexpectedEof then .ok acc
    else .error (.ioErr k m)

/-- Status line plus header block: lines 57-73 of `http_client.rs`.  Returns
the parsed status code, the leftover buffered bytes and the remaining
events. -/
def read_status_and_headers (evs : List StreamEvent) :
    Except DownloadError (Nat × List Byte × List StreamEvent) :=
  match read_line_bytes [] [] evs with
  | .error (k, m) => .error (.ioErr k m)
  | .ok (lb, buf, evs1) =>
    if lb = [] then .error (.strErr closedBeforeMsg)
    else
      match utf8Decode lb with
      | none => .error (.ioErr .invalidData utf8ErrMsg)
      | some cs =>
        match parse_status_line (String.mk cs) with
        | .error e => .error (.strErr e.message)
        | .ok code =>
          match read_headers buf evs1 with
          | .error e => .error e
          | .ok (buf2, evs2) => .ok (code, buf2, evs2)

/-- The reading half of `fetch_range_via_stream`: status line, headers, then
body drain. -/
def fetch_result (evs : List StreamEvent) : Except DownloadError (Nat × List Byte) :=
  match read_status_and_headers evs with
  | .error e => .error e
  | .ok (code, buf, evs2) =>
    match drain_events buf evs2 with
    | .error e => .error e
    | .ok body => .ok (code, body)

/-- The request `format!` string of `fetch_range_via_stream`. -/
def build_request (target_host : String) (start_byte : Nat) : String :=
  "GET / HTTP/1.1\r\nHost: " ++ target_host ++ "\r\nRange: bytes=" ++ Nat.repr start_byte
    ++ "-\r\nConnection: close\r\nUser-Agent: RustStdNetClient/1.0\r\n\r\n"

/-- `fetch_range_via_stream`: writes the request (always succeeds, as with
the repository's mock stream), then reads the response.  The written request
is returned alongside the result. -/
def fetch_range_via_stream (target_host : String) (start_byte : Nat)
    (evs : List StreamEvent) : String × Except DownloadError (Nat × List Byte) :=
  (build_request target_host start_byte, fetch_result evs)

/-- ASCII-or-truncated view of a string as bytes (every character of the
strings used here is ASCII). -/
def strBytes (s : String) : List Byte := s.data.map (fun c => ⟨c.toNat % 256, by omega⟩)

/-- A byte list decoded as ASCII characters. -/
def asciiStr (l : List Byte) : String := String.mk (l.map (fun b => Char.ofNat b.val))

/-! ## Download orchestration (main.rs, download_file) -/

/-- The `Err(...)` message of the resolution failure in `fetch_range`. -/
def resolveFailedMsg (target : String) : String := "Failed to resolve address: " ++ target

/-- One fetch attempt's outcome as `download_file` sees it. -/
abbrev FetchOutcome := Except DownloadError (Nat × List Byte)

/-- `str::contains`: does `needle` occur as a contiguous substring of
`hay`? -/
def strContains (hay needle : List Char) : Bool :=
  hay.tails.any (fun t => needle.isPrefixOf t)

/-- The substring tests of the `_` arm of the retryability match in
`download_file`. -/
def containsMarker (s : String) : Bool :=
  strContains s.data "Failed to resolve address".data
    || strContains s.data "Connection closed before status line".data
    || strContains s.data "Connection closed during header reading".data

/-- The retryability classification of `download_file` (lines 56-72 of
`main.rs`): six connection-level `io::ErrorKind`s are retryable, and every
other error falls through to substring matching on its display text. -/
def is_retryable (e : DownloadError) : Bool :=
  match e.ioKind with
  | some .connectionRefused | some .timedOut | some .connectionReset
  | some .connectionAborted | some .notConnected | some .brokenPipe => true
  | _ => containsMarker e.message

/-- How `download_file` can leave its loop. -/
inductive LoopResult where
  | success (data : List Byte)
  | statusFailure (status : Nat)
  | fatalError (e : DownloadError)
deriving DecidableEq, Repr

/-- One loop iteration either continues with a new accumulated payload or
halts with a result. -/
inductive StepOutcome where
  | next (data : List Byte)
  | halt (r : LoopResult)
deriving DecidableEq, Repr

/-- One iteration of the `download_file` loop, given the current accumulated
payload `data` (so `start_byte = data.length`) and the attempt's outcome. -/
def download_step (data : List Byte) (o : FetchOutcome) : StepOutcome :=
  match o with
  | .ok (status, chunk) =>
    if status = 200 || status = 206 then
      if status = 206 && decide (chunk = []) && decide (data.length > 0) then
        .halt (.success (data ++ chunk))
      else .next (data ++ chunk)
    else .halt (.statusFailure status)
  | .error e => if is_retryable e then .next data else .halt (.fatalError e)

/-- The `download_file` loop run against a finite script of attempt
outcomes; `none` when the script is exhausted with the loop still
running. -/
def download_run (data : List Byte) : List FetchOutcome → Option LoopResult
  | [] => none
  | o :: rest =>
    match download_step data o with
    | .halt r => some r
    | .next d => download_run d rest

/-- The `start_byte` values requested by successive attempts of the loop
(one per consumed outcome; each is the accumulated length at that
iteration, exactly as line 32 of `main.rs` computes it). -/
def request_offsets (data : List Byte) : List FetchOutcome → List Nat
  | [] => []
  | o :: rest =>
    data.length ::
      (match download_step data o with
       | .halt _ => []
       | .next d => request_offsets d rest)

instance {ε α : Type} [DecidableEq ε] [DecidableEq α] : DecidableEq (Except ε α) := fun x y =>
  match x, y with
  | .error a, .error b => if h : a = b then .isTrue (by rw [h]) else .isFalse (by simp [h])
  | .ok a, .ok b => if h : a = b then .isTrue (by rw [h]) else .isFalse (by simp [h])
  | .error _, .ok _ => .isFalse (by simp)
  | .ok _, .error _ => .isFalse (by simp)

/-! ## Helper lemmas -/

theorem encodeChars_length (bs : List Byte) : (encodeChars bs).length = 2 * bs.length := by
  induction bs with
  | nil => rfl
  | cons b rest ih => simp [encodeChars, ih]; omega

theorem encodeChars_mem (bs : List Byte) (c : Char) (h : c ∈ encodeChars bs) :
    c ∈ HEX_DIGITS := by
  induction bs with
  | nil => simp [encodeChars] at h
  | cons b rest ih =>
    have h16 : HEX_DIGITS.length = 16 := rfl
    have hhi : b.val / 16 < HEX_DIGITS.length := by
      have := b.isLt
      rw [h16]
      omega
    have hlo : b.val % 16 < HEX_DIGITS.length := by
      have := Nat.mod_lt b.val (show 0 < 16 by omega)
      rw [h16]
      omega
    simp only [encodeChars, List.mem_cons] at h
    rcases h with h | h | h
    · rw [h, List.getD_eq_getElem _ _ hhi]; exact List.getElem_mem hhi
    · rw [h, List.getD_eq_getElem _ _ hlo]; exact List.getElem_mem hlo
    · exact ih h

theorem download_step_next_extends (data : List Byte) (o : FetchOutcome) (d2 : List Byte)
    (h : download_step data o = .next d2) : data <+: d2 := by
  rcases o with e | ⟨status, chunk⟩
  · simp only [download_step] at h
    split at h
    · simp only [StepOutcome.next.injEq] at h
      exact h ▸ List.prefix_refl data
    · exact absurd h (by simp)
  · simp only [download_step] at h
    split at h
    · split at h
      · exact absurd h (by simp)
      · simp only [StepOutcome.next.injEq] at h
        exact h ▸ List.prefix_append data chunk
    · exact absurd h (by simp)

theorem download_step_success_eq (data : List Byte) (o : FetchOutcome) (p : List Byte)
    (h : download_step data o = .halt (.success p)) :
    o = .ok (206, []) ∧ data ≠ [] ∧ p = data := by
  rcases o with e | ⟨status, chunk⟩
  · simp only [download_step] at h
    split at h
    · exact absurd h (by simp)
    · exact absurd h (by simp)
  · simp only [download_step] at h
    split at h
    · rename_i hok
      split at h
      · rename_i hterm
        simp only [Bool.and_eq_true, decide_eq_true_eq] at hterm
        obtain ⟨⟨h206, hchunk⟩, hlen⟩ := hterm
        simp only [StepOutcome.halt.injEq, LoopResult.success.injEq] at h
        subst h206 hchunk
        refine ⟨rfl, ?_, ?_⟩
        · intro hnil; subst hnil; simp at hlen
        · simp [← h]
      · exact absurd h (by simp)
    · exact absurd h (by simp)

theorem download_run_success_extends (outs : List FetchOutcome) (data p : List Byte)
    (h : download_run data outs = some (.success p)) : data <+: p := by
  induction outs generalizing data with
  | nil => simp [download_run] at h
  | cons o rest ih =>
    simp only [download_run] at h
    split at h
    · rename_i r hstep
      simp only [Option.some.injEq] at h
      subst h
      exact (download_step_success_eq data o p hstep).2.2 ▸ List.prefix_refl p
    · rename_i d hstep
      exact (download_step_next_extends data o d hstep).trans (ih d h)

/-! ## Claim theorems -/

/-- C9: hex encoding is a pure function (hence deterministic), yields
exactly twice as many characters as input bytes, uses only the sixteen
lowercase hex digits, maps each byte to its high nibble then its low
nibble, and sends `[0xDE,0xAD,0xBE,0xEF]` to `"deadbeef"` and `[]` to
`""`. -/
theorem C9_hex_encode :
    (∀ bs : List Byte, (encode bs).length = 2 * bs.length)
    ∧ (∀ (bs : List Byte) (c : Char), c ∈ (encode bs).data → c ∈ HEX_DIGITS)
    ∧ (∀ (b : Byte) (rest : List Byte),
        encodeChars (b :: rest)
          = HEX_DIGITS.getD (b.val / 16) '0' :: HEX_DIGITS.getD (b.val % 16) '0'
            :: encodeChars rest)
    ∧ encode [0xDE, 0xAD, 0xBE, 0xEF] = "deadbeef" ∧ encode [] = "" := by
  exact ⟨fun bs => encodeChars_length bs, fun bs c h => encodeChars_mem bs c h,
    fun b rest => rfl, by decide, rfl⟩

theorem C9_hex_encode_witness : 'd' ∈ HEX_DIGITS ∧ (encode [222]).length = 2 * 1 :=
  ⟨C9_hex_encode.2.1 [222] 'd' (by decide), C9_hex_encode.1 [222]⟩

/-- C8: for every host:port string and start offset, the request written to
the stream before any read is exactly the concatenation
`"GET / HTTP/1.1" CRLF "Host: <host:port>" CRLF "Range: bytes=<offset>-"
CRLF "Connection: close" CRLF "User-Agent: RustStdNetClient/1.0" CRLF CRLF`
with the offset in decimal; no upper bound is requested, and offsets beyond
2^64 are still rendered in full. -/
theorem C8_request_bytes :
    (∀ (target : String) (start : Nat) (evs : List StreamEvent),
        (fetch_range_via_stream target start evs).1
          = "GET / HTTP/1.1" ++ "\r\n" ++ ("Host: " ++ target) ++ "\r\n"
            ++ ("Range: bytes=" ++ Nat.repr start ++ "-") ++ "\r\n"
            ++ "Connection: close" ++ "\r\n" ++ ("User-Agent: " ++ "RustStdNetClient/1.0")
            ++ "\r\n" ++ "\r\n")
    ∧ (fetch_range_via_stream "127.0.0.1:8080" 18446744073709551616 []).1
        = "GET / HTTP/1.1\r\nHost: 127.0.0.1:8080\r\nRange: bytes=18446744073709551616-\r\nConnection: close\r\nUser-Agent: RustStdNetClient/1.0\r\n\r\n" := by
  constructor
  · intro target start evs
    apply String.ext
    simp [fetch_range_via_stream, build_request, String.data_append]
  · rfl

/-- C2: a fetch outcome of status 206 with an empty body at a positive
start offset is the unique normal success of the loop, returning the
accumulated payload unchanged; every other 200/206 outcome (200 with an
empty body, 206 with an empty body at offset 0, and any nonempty body)
appends the returned bytes and continues. -/
theorem C2_terminal_condition :
    (∀ data : List Byte, data ≠ [] → download_step data (.ok (206, [])) = .halt (.success data))
    ∧ (∀ data chunk : List Byte, download_step data (.ok (200, chunk)) = .next (data ++ chunk))
    ∧ (∀ data chunk : List Byte, chunk ≠ [] →
        download_step data (.ok (206, chunk)) = .next (data ++ chunk))
    ∧ (∀ chunk : List Byte, download_step [] (.ok (206, chunk)) = .next chunk)
    ∧ (∀ (data : List Byte) (o : FetchOutcome) (p : List Byte),
        download_step data o = .halt (.success p) → o = .ok (206, []) ∧ data ≠ [] ∧ p = data) := by
  refine ⟨?_, ?_, ?_, ?_, fun data o p h => download_step_success_eq data o p h⟩
  · intro data h
    have : 0 < data.length := List.length_pos.mpr h
    simp [download_step, this]
  · intro data chunk
    simp [download_step]
  · intro data chunk h
    simp [download_step, h]
  · intro chunk
    simp [download_step]

theorem C2_terminal_condition_witness :
    download_step [87] (.ok (206, [])) = .halt (.success [87])
    ∧ download_step [87] (.ok (200, [])) = .next [87]
    ∧ download_step [] (.ok (206, [88])) = .next [88] :=
  ⟨C2_terminal_condition.1 [87] (by decide),
   C2_terminal_condition.2.1 [87] [],
   C2_terminal_condition.2.2.2.1 [88]⟩

/-- C7: a fetch attempt that succeeds with any status other than 200 and
206 halts the loop at once with a status failure carrying that status —
regardless of the body and of any outcomes that could have followed, so
there are zero retries. -/
theorem C7_non_success_status_fatal :
    (∀ (data chunk : List Byte) (status : Nat), status ≠ 200 → status ≠ 206 →
        download_step data (.ok (status, chunk)) = .halt (.statusFailure status))
    ∧ (∀ (data chunk : List Byte) (status : Nat) (rest : List FetchOutcome),
        status ≠ 200 → status ≠ 206 →
        download_run data (.ok (status, chunk) :: rest) = some (.statusFailure status)) := by
  have hstep : ∀ (data chunk : List Byte) (status : Nat), status ≠ 200 → status ≠ 206 →
      download_step data (.ok (status, chunk)) = .halt (.statusFailure status) := by
    intro data chunk status h200 h206
    simp [download_step, h200, h206]
  refine ⟨hstep, fun data chunk status rest h200 h206 => ?_⟩
  simp [download_run, hstep data chunk status h200 h206]

theorem C7_non_success_status_fatal_witness :
    download_run [] [.ok (404, strBytes "Not Found Error Page"), .ok (200, [1])]
      = some (.statusFailure 404) :=
  C7_non_success_status_fatal.2 [] (strBytes "Not Found Error Page") 404
    [.ok (200, [1])] (by decide) (by decide)

/-- C4: each loop iteration only ever appends to the accumulated payload
(the old payload is a prefix of the new one, over single steps and over
whole runs), a retryable error leaves the payload untouched, and the start
offset of every attempt is the accumulated length at that moment — so after
a retryable error the next attempt reuses exactly the same offset. -/
theorem C4_payload_invariants :
    (∀ (data : List Byte) (o : FetchOutcome) (d2 : List Byte),
        download_step data o = .next d2 → data <+: d2)
    ∧ (∀ (data : List Byte) (e : DownloadError) (d2 : List Byte),
        download_step data (.error e) = .next d2 → d2 = data)
    ∧ (∀ (outs : List FetchOutcome) (data p : List Byte),
        download_run data outs = some (.success p) → data <+: p)
    ∧ (∀ (data : List Byte) (o : FetchOutcome) (rest : List FetchOutcome),
        (request_offsets data (o :: rest)).head? = some data.length)
    ∧ (∀ (data : List Byte) (e : DownloadError) (rest : List FetchOutcome),
        is_retryable e = true →
        request_offsets data (.error e :: rest) = data.length :: request_offsets data rest) := by
  refine ⟨fun data o d2 h => download_step_next_extends data o d2 h,
    ?_, fun outs data p h => download_run_success_extends outs data p h, ?_, ?_⟩
  · intro data e d2 h
    simp only [download_step] at h
    split at h
    · simpa using h.symm
    · exact absurd h (by simp)
  · intro data o rest
    simp [request_offsets]
  · intro data e rest h
    simp [request_offsets, download_step, h]

theorem C4_payload_invariants_witness :
    ([3] : List Byte) <+: [3, 4]
    ∧ request_offsets [3] [.error (.ioErr .timedOut "timed out"), .ok (206, [])]
        = 1 :: request_offsets [3] [.ok (206, [])] :=
  ⟨C4_payload_invariants.1 [3] (.ok (206, [4])) [3, 4] (by decide),
   C4_payload_invariants.2.2.2.2 [3] (.ioErr .timedOut "timed out")
     [.ok (206, [])] (by decide)⟩

/-- C1: the retryability classification of `download_file` does not match
the claimed taxonomy.  A server status line reading
"BAD Connection closed before status line received" yields a
malformed-status-line error, which the claim requires to be fatal; but its
formatted message quotes the line, so the substring test classifies it as
retryable and the loop retries instead of terminating. -/
theorem C1_substring_classification_bug :
    fetch_result [.bytes (strBytes "BAD Connection closed before status line received\r\n")]
      = .error (.strErr ((StatusLineError.badVersion "BAD"
          "BAD Connection closed before status line received").message))
    ∧ is_retryable (.strErr ((StatusLineError.badVersion "BAD"
        "BAD Connection closed before status line received").message)) = true
    ∧ download_step [] (.error (.strErr ((StatusLineError.badVersion "BAD"
        "BAD Connection closed before status line received").message))) = .next [] :=
  ⟨by decide, by decide, by decide⟩

theorem dropWhile_all_nil {p : Char → Bool} {l : List Char}
    (h : ∀ c ∈ l, p c = true) : l.dropWhile p = [] :=
  List.dropWhile_eq_nil_iff.mpr h

theorem trimChars_ws_left (ws s : List Char) (h : ∀ c ∈ ws, isRustWhitespace c = true) :
    trimChars (ws ++ s) = trimChars s := by
  unfold trimChars
  rw [List.dropWhile_append, dropWhile_all_nil h]
  simp

theorem trimChars_ws_right (s ws : List Char) (h : ∀ c ∈ ws, isRustWhitespace c = true) :
    trimChars (s ++ ws) = trimChars s := by
  have hws : ws.dropWhile isRustWhitespace = [] := dropWhile_all_nil h
  have hwsr : ws.reverse.dropWhile isRustWhitespace = [] :=
    dropWhile_all_nil (fun c hc => h c (List.mem_reverse.mp hc))
  unfold trimChars
  rw [List.dropWhile_append]
  by_cases hs : (s.dropWhile isRustWhitespace).isEmpty
  · rw [List.isEmpty_iff] at hs
    simp [hs, hws]
  · simp only [hs, if_false, Bool.false_eq_true]
    rw [List.reverse_append, List.dropWhile_append, hwsr]
    simp

theorem parse_mk_congr (l1 l2 : List Char) (h : trimChars l1 = trimChars l2) :
    parse_status_line (String.mk l1) = parse_status_line (String.mk l2) := by
  unfold parse_status_line
  simp only [show (String.mk l1).data = l1 from rfl, show (String.mk l2).data = l2 from rfl, h]

theorem parse_empty_line (line : String) (h : trimChars line.data = []) :
    parse_status_line line = .error .emptyAfterTrim := by
  unfold parse_status_line
  rw [if_pos h]

theorem splitn3_ne_nil (s : List Char) : splitn3 s ≠ [] := by
  unfold splitn3
  rcases h1 : splitOnceChar ' ' s with - | ⟨a, r⟩
  · simp
  · rcases h2 : splitOnceChar ' ' r with - | ⟨b, c⟩ <;> simp [h2]

theorem parse_too_few (line : String) (hne : trimChars line.data ≠ [])
    (h : (splitn3 (trimChars line.data)).length < 2) :
    parse_status_line line = .error (.tooFewParts (String.mk (trimChars line.data))) := by
  unfold parse_status_line
  rw [if_neg hne]
  rcases hs : splitn3 (trimChars line.data) with - | ⟨p0, t⟩
  · exact absurd hs (splitn3_ne_nil _)
  · rcases t with - | ⟨p1, t2⟩
    · rfl
    · rw [hs] at h
      simp only [List.length_cons] at h
      omega

theorem parse_bad_version (line : String) (p0 p1 : List Char) (ps : List (List Char))
    (hs : splitn3 (trimChars line.data) = p0 :: p1 :: ps)
    (hv : ("HTTP/".data).isPrefixOf p0 = false) :
    parse_status_line line
      = .error (.badVersion (String.mk p0) (String.mk (trimChars line.data))) := by
  have hne : trimChars line.data ≠ [] := by
    intro h
    rw [h] at hs
    simp [splitn3, splitOnceChar] at hs
  unfold parse_status_line
  rw [if_neg hne, hs]
  simp [hv]

theorem parse_bad_code (line : String) (p0 p1 : List Char) (ps : List (List Char))
    (pe : ParseIntError) (hs : splitn3 (trimChars line.data) = p0 :: p1 :: ps)
    (hv : ("HTTP/".data).isPrefixOf p0 = true) (hp : parseU16 p1 = .error pe) :
    parse_status_line line
      = .error (.badCode (String.mk p1) (String.mk (trimChars line.data)) pe) := by
  have hne : trimChars line.data ≠ [] := by
    intro h
    rw [h] at hs
    simp [splitn3, splitOnceChar] at hs
  unfold parse_status_line
  rw [if_neg hne, hs]
  simp [hv, hp]

theorem parse_ok_of (line : String) (p0 p1 : List Char) (ps : List (List Char)) (n : Nat)
    (hs : splitn3 (trimChars line.data) = p0 :: p1 :: ps)
    (hv : ("HTTP/".data).isPrefixOf p0 = true) (hp : parseU16 p1 = .ok n) :
    parse_status_line line = .ok n := by
  have hne : trimChars line.data ≠ [] := by
    intro h
    rw [h] at hs
    simp [splitn3, splitOnceChar] at hs
  unfold parse_status_line
  rw [if_neg hne, hs]
  simp [hv, hp]

theorem parseU16Digits_lt (ds : List Char) (acc n : Nat) (hacc : acc < 65536)
    (h : parseU16Digits ds acc = .ok n) : n < 65536 := by
  induction ds generalizing acc with
  | nil =>
    simp only [parseU16Digits, Except.ok.injEq] at h
    omega
  | cons c rest ih =>
    simp only [parseU16Digits] at h
    split at h
    · split at h
      · exact ih _ (by assumption) h
      · simp at h
    · simp at h

theorem parseU16_lt (s : List Char) (n : Nat) (h : parseU16 s = .ok n) : n < 65536 := by
  rcases s with - | ⟨c, rest⟩
  · simp [parseU16] at h
  · simp only [parseU16] at h
    split at h
    · rcases rest with - | ⟨d, ds⟩
      · simp at h
      · exact parseU16Digits_lt _ 0 n (by omega) h
    · exact parseU16Digits_lt _ 0 n (by omega) h

theorem parse_ok_lt (line : String) (n : Nat) (h : parse_status_line line = .ok n) :
    n < 65536 := by
  unfold parse_status_line at h
  split at h
  · simp at h
  · split at h
    · split at h
      · split at h
        · rename_i m hm
          simp only [Except.ok.injEq] at h
          exact h ▸ parseU16_lt _ m hm
        · simp at h
      · simp at h
    · simp at h

/-- C5: status-line parsing is invariant under surrounding whitespace,
fails on an empty (after trimming) line, fails when splitting on the first
two spaces leaves fewer than two fields, fails with the
malformed-status-line error when the first field does not start with
"HTTP/", fails with the invalid-status-code error when the second field
does not parse as a u16, returns the parsed integer (always below 65536)
otherwise, and in particular accepts the three listed examples (plus one
with surrounding whitespace) and rejects the four listed inputs. -/
theorem C5_status_line_grammar :
    (∀ (ws1 ws2 : List Char) (line : String),
        (∀ c ∈ ws1, isRustWhitespace c = true) → (∀ c ∈ ws2, isRustWhitespace c = true) →
        parse_status_line (String.mk (ws1 ++ line.data ++ ws2)) = parse_status_line line)
    ∧ (∀ line : String, trimChars line.data = [] →
        parse_status_line line = .error .emptyAfterTrim)
    ∧ (∀ line : String, trimChars line.data ≠ [] →
        (splitn3 (trimChars line.data)).length < 2 →
        parse_status_line line = .error (.tooFewParts (String.mk (trimChars line.data))))
    ∧ (∀ (line : String) (p0 p1 : List Char) (ps : List (List Char)),
        splitn3 (trimChars line.data) = p0 :: p1 :: ps →
        ("HTTP/".data).isPrefixOf p0 = false →
        parse_status_line line
          = .error (.badVersion (String.mk p0) (String.mk (trimChars line.data))))
    ∧ (∀ (line : String) (p0 p1 : List Char) (ps : List (List Char)) (pe : ParseIntError),
        splitn3 (trimChars line.data) = p0 :: p1 :: ps →
        ("HTTP/".data).isPrefixOf p0 = true → parseU16 p1 = .error pe →
        parse_status_line line
          = .error (.badCode (String.mk p1) (String.mk (trimChars line.data)) pe))
    ∧ (∀ (line : String) (p0 p1 : List Char) (ps : List (List Char)) (n : Nat),
        splitn3 (trimChars line.data) = p0 :: p1 :: ps →
        ("HTTP/".data).isPrefixOf p0 = true → parseU16 p1 = .ok n →
        parse_status_line line = .ok n)
    ∧ (∀ (line : String) (n : Nat), parse_status_line line = .ok n → n < 65536)
    ∧ parse_status_line "HTTP/1.1 200 OK" = .ok 200
    ∧ parse_status_line "HTTP/1.0 206 Partial Content" = .ok 206
    ∧ parse_status_line "HTTP/2 404 Not Found" = .ok 404
    ∧ parse_status_line " HTTP/1.1 302 Found Redirect \r\n" = .ok 302
    ∧ parse_status_line "HTTP/1.1 OK"
        = .error (.badCode "OK" "HTTP/1.1 OK" .invalidDigit)
    ∧ parse_status_line "HTTP/1.1 20X OK"
        = .error (.badCode "20X" "HTTP/1.1 20X OK" .invalidDigit)
    ∧ parse_status_line " 200 OK" = .error (.badVersion "200" "200 OK")
    ∧ parse_status_line "" = .error .emptyAfterTrim := by
  refine ⟨?_, fun line h => parse_empty_line line h,
    fun line h1 h2 => parse_too_few line h1 h2,
    fun line p0 p1 ps hs hv => parse_bad_version line p0 p1 ps hs hv,
    fun line p0 p1 ps pe hs hv hp => parse_bad_code line p0 p1 ps pe hs hv hp,
    fun line p0 p1 ps n hs hv hp => parse_ok_of line p0 p1 ps n hs hv hp,
    fun line n h => parse_ok_lt line n h,
    by decide, by decide, by decide, by decide, by decide, by decide, by decide, by decide⟩
  intro ws1 ws2 line h1 h2
  have hline : parse_status_line line = parse_status_line (String.mk line.data) := rfl
  rw [hline]
  apply parse_mk_congr
  rw [show ws1 ++ line.data ++ ws2 = ws1 ++ (line.data ++ ws2) from (List.append_assoc _ _ _),
    trimChars_ws_left _ _ h1, trimChars_ws_right _ _ h2]

theorem C5_status_line_grammar_witness :
    parse_status_line (String.mk ([' '] ++ "HTTP/1.1 200 OK".data ++ ['\r', '\n']))
      = parse_status_line "HTTP/1.1 200 OK"
    ∧ parse_status_line "HTTP/503 503 Service Unavailable" = .ok 503 :=
  ⟨C5_status_line_grammar.1 [' '] ['\r', '\n'] "HTTP/1.1 200 OK" (by decide) (by decide),
   C5_status_line_grammar.2.2.2.2.2.1 "HTTP/503 503 Service Unavailable"
     "HTTP/503".data "503".data ["Service Unavailable".data] 503
     (by decide) (by decide) (by decide)⟩

theorem split_at_newline_none (l : List Byte) (h : (10 : Byte) ∉ l) :
    split_at_newline l = none := by
  induction l with
  | nil => rfl
  | cons b r ih =>
    simp only [List.mem_cons, not_or] at h
    have hb : ¬(b = 10) := fun hb => h.1 hb.symm
    simp [split_at_newline, hb, ih h.2]

theorem split_at_newline_some (c rest : List Byte) (h : (10 : Byte) ∉ c) :
    split_at_newline (c ++ 10 :: rest) = some (c ++ [10], rest) := by
  induction c with
  | nil => simp [split_at_newline]
  | cons b cs ih =>
    simp only [List.mem_cons, not_or] at h
    have hb : ¬(b = 10) := fun hb => h.1 hb.symm
    simp [split_at_newline, hb, ih h.2]

theorem read_line_full (c rest acc : List Byte) (evs : List StreamEvent)
    (h : (10 : Byte) ∉ c) :
    read_line_bytes (c ++ 10 :: rest) acc evs = .ok (acc ++ (c ++ [10]), rest, evs) := by
  simp only [read_line_bytes]
  rw [split_at_newline_some c rest h]

theorem read_line_eof (buf acc : List Byte) (h : (10 : Byte) ∉ buf) :
    read_line_bytes buf acc [] = .ok (acc ++ buf, [], []) := by
  simp only [read_line_bytes]
  rw [split_at_newline_none buf h]
  rfl

theorem read_line_status (c rest : List Byte) (r : List StreamEvent) (h : (10 : Byte) ∉ c) :
    read_line_bytes [] [] (.bytes (c ++ 10 :: rest) :: r) = .ok (c ++ [10], rest, r) := by
  simp only [read_line_bytes, split_at_newline]
  rcases c with - | ⟨y, ys⟩
  · simp only [List.nil_append, read_line_ev]
    rw [show split_at_newline ((10 : Byte) :: rest) = some ([10], rest) from by
      simp [split_at_newline]]
  · simp only [List.cons_append, read_line_ev, List.append_eq]
    rw [show (y : Byte) :: (ys ++ 10 :: rest) = (y :: ys) ++ 10 :: rest from rfl,
      split_at_newline_some (y :: ys) rest h]
    simp

theorem utf8Run_ascii (l : List Byte) (acc : List Char) (h : ∀ b ∈ l, b.val < 128) :
    utf8Run 0 0 0 0 acc l = some (acc.reverse ++ l.map (fun b => Char.ofNat b.val)) := by
  induction l generalizing acc with
  | nil => simp [utf8Run]
  | cons b r ih =>
    have hb : b.val < 0x80 := h b (by simp)
    simp only [utf8Run, if_pos rfl, if_pos hb]
    rw [ih _ (fun x hx => h x (by simp [hx]))]
    simp

theorem utf8Decode_ascii (l : List Byte) (h : ∀ b ∈ l, b.val < 128) :
    utf8Decode l = some (l.map (fun b => Char.ofNat b.val)) := by
  rw [utf8Decode, utf8Run_ascii l [] h]
  rfl

theorem scan_headers_walk (c cur d : List Byte) (h : (10 : Byte) ∉ c) :
    scan_headers cur (c ++ d) = scan_headers (cur ++ c) d := by
  induction c generalizing cur with
  | nil => simp
  | cons b cs ih =>
    simp only [List.mem_cons, not_or] at h
    have hb : ¬(b = 10) := fun hb => h.1 hb.symm
    rw [List.cons_append]
    simp only [scan_headers]
    rw [if_neg hb, ih (cur ++ [b]) h.2]
    simp

theorem scan_headers_line (cnt rest : List Byte) (hn : (10 : Byte) ∉ cnt)
    (hascii : ∀ b ∈ cnt, b.val < 128) (hblank : cnt ≠ [13]) :
    scan_headers [] (cnt ++ 10 :: rest) = scan_headers [] rest := by
  rw [show cnt ++ 10 :: rest = cnt ++ ((10 : Byte) :: rest) from rfl,
    scan_headers_walk cnt [] _ hn, List.nil_append]
  have hsome : (utf8Decode (cnt ++ [10])).isSome = true := by
    rw [utf8Decode_ascii _ (by
      intro b hb
      rcases List.mem_append.mp hb with hmem | hmem
      · exact hascii b hmem
      · simp only [List.mem_singleton] at hmem
        subst hmem
        decide)]
    rfl
  have hne : ¬(cnt ++ [(10 : Byte)] = [13, 10]) := by
    intro hc
    exact hblank (List.append_cancel_right (by simpa using hc))
  simp only [scan_headers, if_true]
  rw [if_pos hsome, if_neg hne]

theorem scan_headers_to_end (l : List Byte) (h : (10 : Byte) ∉ l) :
    scan_headers [] l = .ok (.inl l) := by
  have hw := scan_headers_walk l [] [] h
  rw [List.append_nil] at hw
  rw [hw]
  rfl

theorem read_headers_ev_eof (cur : List Byte) (hascii : ∀ b ∈ cur, b.val < 128) :
    read_headers_ev cur [] = .error (.strErr closedDuringMsg) := by
  by_cases hcur : cur = []
  · subst hcur; rfl
  · have hsome : (utf8Decode cur).isSome = true := by
      rw [utf8Decode_ascii cur hascii]
      rfl
    simp only [read_headers_ev]
    rw [if_neg hcur, if_pos hsome]

theorem scan_headers_join (hs0 : List (List Byte)) (tailB : List Byte)
    (hhs : ∀ h ∈ hs0, ∃ cnt, h = cnt ++ [10] ∧ (10 : Byte) ∉ cnt
        ∧ (∀ b ∈ cnt, b.val < 128) ∧ cnt ≠ [13]) :
    scan_headers [] (hs0.flatten ++ tailB) = scan_headers [] tailB := by
  induction hs0 with
  | nil => simp
  | cons h1 t ih =>
    obtain ⟨cnt, he, hn, hascii, hb⟩ := hhs h1 (by simp)
    subst he
    rw [List.flatten_cons, List.append_assoc,
      show cnt ++ [(10 : Byte)] ++ (t.flatten ++ tailB)
          = cnt ++ 10 :: (t.flatten ++ tailB) from by simp,
      scan_headers_line cnt _ hn hascii hb]
    exact ih (fun x hx => hhs x (by simp [hx]))

theorem read_headers_closed (hs0 : List (List Byte)) (partialB : List Byte)
    (hhs : ∀ h ∈ hs0, ∃ cnt, h = cnt ++ [10] ∧ (10 : Byte) ∉ cnt
        ∧ (∀ b ∈ cnt, b.val < 128) ∧ cnt ≠ [13])
    (hp10 : (10 : Byte) ∉ partialB) (hpascii : ∀ b ∈ partialB, b.val < 128) :
    read_headers (hs0.flatten ++ partialB) [] = .error (.strErr closedDuringMsg) := by
  simp only [read_headers]
  rw [scan_headers_join hs0 partialB hhs, scan_headers_to_end partialB hp10]
  exact read_headers_ev_eof partialB hpascii

theorem drain_transient (chunks : List (List Byte)) (acc : List Byte) (k : IOErrorKind)
    (m : String) (rest : List StreamEvent) (hc : ∀ c ∈ chunks, c ≠ [])
    (hk : k = .wouldBlock ∨ k = .timedOut ∨ k = .unexpectedEof) :
    drain_events acc (chunks.map StreamEvent.bytes ++ .ioError k m :: rest)
      = .ok (acc ++ chunks.flatten) := by
  induction chunks generalizing acc with
  | nil =>
    rcases hk with h | h | h <;> subst h <;> simp [drain_events]
  | cons c cs ih =>
    have hcne : c ≠ [] := hc c (by simp)
    rcases c with - | ⟨x, xs⟩
    · exact absurd rfl hcne
    · simp only [List.map_cons, List.cons_append, drain_events, List.append_eq]
      rw [ih (acc ++ x :: xs) (fun y hy => hc y (by simp [hy]))]
      simp

theorem fetch_closed_during (slc : List Byte) (code : Nat) (hs0 : List (List Byte))
    (partialB : List Byte) (h10 : (10 : Byte) ∉ slc) (hascii : ∀ b ∈ slc, b.val < 128)
    (hparse : parse_status_line (asciiStr (slc ++ [10])) = .ok code)
    (hhs : ∀ h ∈ hs0, ∃ cnt, h = cnt ++ [10] ∧ (10 : Byte) ∉ cnt
        ∧ (∀ b ∈ cnt, b.val < 128) ∧ cnt ≠ [13])
    (hp10 : (10 : Byte) ∉ partialB) (hpascii : ∀ b ∈ partialB, b.val < 128) :
    fetch_result [.bytes (slc ++ 10 :: (hs0.flatten ++ partialB))]
      = .error (.strErr closedDuringMsg) := by
  have hsl_ascii : ∀ b ∈ slc ++ [(10 : Byte)], b.val < 128 := by
    intro b hb
    rcases List.mem_append.mp hb with hmem | hmem
    · exact hascii b hmem
    · simp only [List.mem_singleton] at hmem
      subst hmem
      decide
  simp only [asciiStr] at hparse
  have hsh : read_status_and_headers [.bytes (slc ++ 10 :: (hs0.flatten ++ partialB))]
      = .error (.strErr closedDuringMsg) := by
    simp only [read_status_and_headers]
    rw [read_line_status slc (hs0.flatten ++ partialB) [] h10]
    dsimp only
    rw [if_neg (show ¬(slc ++ [(10 : Byte)] = []) from by simp),
      utf8Decode_ascii (slc ++ [10]) hsl_ascii]
    dsimp only
    rw [hparse]
    dsimp only
    rw [read_headers_closed hs0 partialB hhs hp10 hpascii]
  simp only [fetch_result]
  rw [hsh]

/-- C6: a stream closed (zero-byte read) before any status line fails with
the distinct closed-before-status-line error; a stream that delivers a
valid status line and then only complete non-blank header lines plus at
most a partial line before closing fails with the distinct
closed-during-header-reading error; the two error messages differ, so the
caller can classify them separately. -/
theorem C6_closed_stream_errors :
    fetch_result [] = .error (.strErr closedBeforeMsg)
    ∧ (∀ rest : List StreamEvent,
        fetch_result (.bytes [] :: rest) = .error (.strErr closedBeforeMsg))
    ∧ (∀ (slc : List Byte) (code : Nat) (hs0 : List (List Byte)) (partialB : List Byte),
        (10 : Byte) ∉ slc → (∀ b ∈ slc, b.val < 128) →
        parse_status_line (asciiStr (slc ++ [10])) = .ok code →
        (∀ h ∈ hs0, ∃ cnt, h = cnt ++ [10] ∧ (10 : Byte) ∉ cnt
            ∧ (∀ b ∈ cnt, b.val < 128) ∧ cnt ≠ [13]) →
        (10 : Byte) ∉ partialB → (∀ b ∈ partialB, b.val < 128) →
        fetch_result [.bytes (slc ++ 10 :: (hs0.flatten ++ partialB))]
          = .error (.strErr closedDuringMsg))
    ∧ closedBeforeMsg ≠ closedDuringMsg := by
  refine ⟨rfl, fun rest => rfl,
    fun slc code hs0 partialB h10 hascii hparse hhs hp10 hpascii =>
      fetch_closed_during slc code hs0 partialB h10 hascii hparse hhs hp10 hpascii,
    by decide⟩

set_option maxRecDepth 4000 in
theorem C6_closed_stream_errors_witness :
    fetch_result [.bytes (strBytes "HTTP/1.1 206 OK\r"
        ++ 10 :: (([] : List (List Byte)).flatten ++ strBytes "Content-Type: text/p"))]
      = .error (.strErr closedDuringMsg) :=
  C6_closed_stream_errors.2.2.1 (strBytes "HTTP/1.1 206 OK\r") 206
    [] (strBytes "Content-Type: text/p") (by decide) (by decide) (by decide)
    (by simp) (by decide) (by decide)

/-- C10: the header block terminates only on a line equal to exactly
`"\r\n"`; a blank line ending in a bare `\n` does not match the comparison
(first conjunct), so a response whose status line parses but whose
subsequent lines all end in a bare line feed never reaches the body: once
the stream is exhausted the fetch fails with the
closed-during-header-reading error instead of returning the body. -/
theorem C10_lf_only_headers :
    (∀ rest : List Byte, scan_headers [] ((10 : Byte) :: rest) = scan_headers [] rest)
    ∧ (∀ (slc : List Byte) (code : Nat) (lines : List (List Byte)),
        (10 : Byte) ∉ slc → (∀ b ∈ slc, b.val < 128) →
        parse_status_line (asciiStr (slc ++ [10])) = .ok code →
        (∀ l ∈ lines, ∃ cnt, l = cnt ++ [10] ∧ (10 : Byte) ∉ cnt ∧ (13 : Byte) ∉ cnt
            ∧ (∀ b ∈ cnt, b.val < 128)) →
        fetch_result [.bytes (slc ++ 10 :: lines.flatten)]
          = .error (.strErr closedDuringMsg)) := by
  constructor
  · intro rest
    rfl
  · intro slc code lines h10 hascii hparse hlines
    have h : fetch_result [.bytes (slc ++ 10 :: (lines.flatten ++ []))]
        = .error (.strErr closedDuringMsg) := by
      apply fetch_closed_during slc code lines [] h10 hascii hparse
      · intro l hl
        obtain ⟨cnt, he, hn, h13, ha⟩ := hlines l hl
        refine ⟨cnt, he, hn, ha, ?_⟩
        intro hc
        subst hc
        exact h13 (by simp)
      · simp
      · simp
    rwa [List.append_nil] at h

set_option maxRecDepth 4000 in
theorem C10_lf_only_headers_witness :
    fetch_result [.bytes (strBytes "HTTP/1.1 200 OK"
        ++ 10 :: [strBytes "Content-Length: 4\n", [(10 : Byte)]].flatten)]
      = .error (.strErr closedDuringMsg) :=
  C10_lf_only_headers.2 (strBytes "HTTP/1.1 200 OK") 200
    [strBytes "Content-Length: 4\n", [(10 : Byte)]] (by decide) (by decide) (by decide)
    (by
      intro l hl
      simp only [List.mem_cons, List.not_mem_nil, or_false] at hl
      rcases hl with h | h <;> subst h
      · exact ⟨strBytes "Content-Length: 4", by decide, by decide, by decide, by decide⟩
      · exact ⟨[], by decide, by decide, by decide, by decide⟩)

/-- C3: when the status line and header block have been read successfully,
a body read failing with a would-block, timed-out, or unexpected-end-of-data
condition ends the fetch as a success carrying the parsed status code and
exactly the bytes received so far in this attempt (the buffered leftover
plus the chunks read before the error) — no error is raised. -/
theorem C3_transient_body_read :
    ∀ (evs : List StreamEvent) (code : Nat) (buf : List Byte)
      (chunks : List (List Byte)) (k : IOErrorKind) (m : String) (rest : List StreamEvent),
      read_status_and_headers evs
        = .ok (code, buf, chunks.map StreamEvent.bytes ++ .ioError k m :: rest) →
      (∀ c ∈ chunks, c ≠ []) →
      (k = .wouldBlock ∨ k = .timedOut ∨ k = .unexpectedEof) →
      fetch_result evs = .ok (code, buf ++ chunks.flatten) := by
  intro evs code buf chunks k m rest h1 hc hk
  simp only [fetch_result]
  rw [h1]
  dsimp only
  rw [drain_transient chunks buf k m rest hc hk]

set_option maxRecDepth 4000 in
theorem C3_transient_body_read_witness :
    fetch_result [.bytes (strBytes "HTTP/1.1 206 Partial Content\r\nContent-Length: 1000\r\n\r\n"),
        .bytes (strBytes "first chunk"), .ioError .timedOut "Simulated read timeout"]
      = .ok (206, [] ++ [strBytes "first chunk"].flatten) :=
  C3_transient_body_read
    [.bytes (strBytes "HTTP/1.1 206 Partial Content\r\nContent-Length: 1000\r\n\r\n"),
      .bytes (strBytes "first chunk"), .ioError .timedOut "Simulated read timeout"]
    206 [] [strBytes "first chunk"] .timedOut "Simulated read timeout" []
    (by decide) (by decide) (by decide)
